import Mathlib

/-!
Shallow embedding of the WinCC OA log-viewer core (logParser.ts and
logFileWatcher.ts) and proofs about it.  Strings are modelled as `List Char`;
the JavaScript regular expressions of the source are translated into
executable matching functions that reproduce the backtracking semantics of
the concrete patterns used (all of which are analysed in the comments next
to each matcher).
-/

namespace WinccoaLog

/-- The JavaScript `\s` character class (WhiteSpace plus LineTerminator),
used by `trim`, `\s+` and `\s*` in the source regexes. -/
def jsSpace (c : Char) : Bool :=
  c.toNat = 0x20 || c.toNat = 0x09 || c.toNat = 0x0a || c.toNat = 0x0d ||
  c.toNat = 0x0b || c.toNat = 0x0c || c.toNat = 0xa0 || c.toNat = 0x1680 ||
  (0x2000 ≤ c.toNat && c.toNat ≤ 0x200a) ||
  c.toNat = 0x2028 || c.toNat = 0x2029 || c.toNat = 0x202f || c.toNat = 0x205f ||
  c.toNat = 0x3000 || c.toNat = 0xfeff

/-- The JavaScript `\w` character class: `[A-Za-z0-9_]`. -/
def jsWordChar (c : Char) : Bool :=
  (0x41 ≤ c.toNat && c.toNat ≤ 0x5a) || (0x61 ≤ c.toNat && c.toNat ≤ 0x7a) ||
    (0x30 ≤ c.toNat && c.toNat ≤ 0x39) || c.toNat = 0x5f

/-- The JavaScript `.` (dot) without the `s` flag: any character except a
line terminator. -/
def dotChar (c : Char) : Bool :=
  !(c.toNat = 0x0a || c.toNat = 0x0d || c.toNat = 0x2028 || c.toNat = 0x2029)

/-- `String.prototype.trim`. -/
def jsTrim (l : List Char) : List Char :=
  ((l.dropWhile jsSpace).reverse.dropWhile jsSpace).reverse

/-- ASCII lower-casing of one character (model of `toLowerCase`). -/
def asciiLower (c : Char) : Char :=
  if 'A' ≤ c && c ≤ 'Z' then Char.ofNat (c.toNat + 32) else c

/-- ASCII upper-casing of one character (model of `toUpperCase`). -/
def asciiUpper (c : Char) : Char :=
  if 'a' ≤ c && c ≤ 'z' then Char.ofNat (c.toNat - 32) else c

/-- `String.prototype.toLowerCase` (ASCII fragment). -/
def toLower (l : List Char) : List Char := l.map asciiLower

/-- `String.prototype.toUpperCase` (ASCII fragment). -/
def toUpper (l : List Char) : List Char := l.map asciiUpper

/-- `String.prototype.includes`: does `needle` occur as a contiguous
substring of `hay`? -/
def containsSub (hay needle : List Char) : Bool :=
  match hay with
  | [] => needle.isEmpty
  | _ :: t => needle.isPrefixOf hay || containsSub t needle

/-- Decimal value of a digit string (model of `parseInt(s, 10)` on an
all-digit string). -/
def digitsToNat (l : List Char) : Nat :=
  l.foldl (fun n c => n * 10 + (c.toNat - 48)) 0

/-- All ways of splitting a list at an occurrence of `sep`, ordered by
increasing length of the part before the separator.  Used to enumerate the
candidate positions a backtracking regex engine would try for a
separator character. -/
def splitsOn (sep : Char) : List Char → List (List Char × List Char)
  | [] => []
  | c :: cs =>
    (if c = sep then [(([] : List Char), cs)] else []) ++
      (splitsOn sep cs).map (fun p => (c :: p.1, p.2))

/-- Take exactly `n` characters satisfying `p`, returning them and the rest. -/
def takeCount (p : Char → Bool) : Nat → List Char → Option (List Char × List Char)
  | 0, l => some ([], l)
  | _ + 1, [] => none
  | n + 1, c :: cs =>
    if p c then (takeCount p n cs).map (fun q => (c :: q.1, q.2)) else none

/-- Expect a literal character at the head of the list. -/
def expectChar (c : Char) : List Char → Option (List Char)
  | [] => none
  | d :: ds => if d = c then some ds else none

/-- Severity enumeration of `logEvent.ts`. -/
inductive LogSeverity where
  | INFO | WARNING | ERROR | SEVERE | DEBUG | OTHER
deriving Repr, DecidableEq

/-- `StacktraceEntry` of `logEvent.ts`. -/
structure StacktraceEntry where
  index : Nat
  functionName : List Char
  filePath : List Char
  line : Nat
deriving Repr, DecidableEq

/-- `LogMetadata` of `logEvent.ts`; a field is `some _` exactly when the
corresponding key has been assigned on the JavaScript object. -/
structure LogMetadata where
  script : Option (List Char) := none
  library : Option (List Char) := none
  line : Option Nat := none
  stacktrace : Option (List StacktraceEntry) := none
  raw : Option (List Char) := none
deriving Repr, DecidableEq

/-- `LogEvent` of `logEvent.ts`. -/
structure LogEvent where
  identifier : List Char
  timestamp : List Char
  scope : List Char
  severity : LogSeverity
  message : List Char
  metadata : Option LogMetadata
  rawLines : List (List Char)
deriving Repr, DecidableEq

/-- The `Partial<LogEvent>` object built by `parseMainLine` and mutated by
`parseMetadataLine` (all of its fields are always assigned on creation;
`metadata` starts as the empty object `{}`). -/
structure PartialEvent where
  identifier : List Char
  timestamp : List Char
  scope : List Char
  severity : LogSeverity
  message : List Char
  metadata : LogMetadata
deriving Repr, DecidableEq

/-- Internal state of the `LogParser` class: `buffer`, `currentEvent` and
`stacktraceMode`. -/
structure ParserState where
  buffer : List (List Char)
  currentEvent : Option PartialEvent
  stacktraceMode : Bool
deriving Repr, DecidableEq

/-- State of a freshly constructed `LogParser`. -/
def initialParserState : ParserState :=
  { buffer := [], currentEvent := none, stacktraceMode := false }

/-- The timestamp part of the main-line regex,
`\d{4}\.\d{2}\.\d{2}\s+\d{2}:\d{2}:\d{2}\.\d{3}`, matched at the head of the
input; returns the exact matched characters (the capture) and the rest.
Every adjacent pair of tokens here has disjoint first characters, so greedy
matching is plain maximal munch. -/
def timestampMatch (l : List Char) : Option (List Char × List Char) := do
  let (d1, r) ← takeCount Char.isDigit 4 l
  let r ← expectChar '.' r
  let (d2, r) ← takeCount Char.isDigit 2 r
  let r ← expectChar '.' r
  let (d3, r) ← takeCount Char.isDigit 2 r
  let (sp, r) := r.span jsSpace
  if sp = [] then none else
  let (t1, r) ← takeCount Char.isDigit 2 r
  let r ← expectChar ':' r
  let (t2, r) ← takeCount Char.isDigit 2 r
  let r ← expectChar ':' r
  let (t3, r) ← takeCount Char.isDigit 2 r
  let r ← expectChar '.' r
  let (ms, r) ← takeCount Char.isDigit 3 r
  some (d1 ++ '.' :: d2 ++ '.' :: d3 ++ sp ++ t1 ++ ':' :: t2 ++ ':' :: t3 ++ '.' :: ms, r)

/-- The `,\s+(.+)$` tail of the main-line regex, entered after the severity
field's comma with `sp5` the maximal space run already consumed and `r` what
follows it.  `(.+)$` must cover everything left; when nothing is left, the
engine backtracks `\s+` by one character (keeping at least one), so the
capture becomes the last space. -/
def restCapture (sp5 r : List Char) : Option (List Char) :=
  if r = [] then
    match sp5.getLast? with
    | some c => if sp5.length ≥ 2 && dotChar c then some [c] else none
    | none => none
  else if r.all dotChar then some r else none

/-- The inner regex of `parseMainLine`, `^\s*(\d+(?:\/\w+)?),\s*(.*)$`,
applied to the captured rest; returns the message capture (group 2).
All variable-width pieces are followed by characters outside their class,
so greedy matching is maximal munch; the optional `\/\w+` group fails the
whole match when it cannot be completed by a comma. -/
def restMatch (rest : List Char) : Option (List Char) :=
  let r := rest.dropWhile jsSpace
  let (num, r) := r.span Char.isDigit
  if num = [] then none else
  let r2 : Option (List Char) :=
    match r with
    | '/' :: rr =>
      let (w, r3) := rr.span jsWordChar
      if w = [] then none else
      match r3 with
      | ',' :: r4 => some r4
      | _ => none
    | ',' :: rr => some rr
    | _ => none
  match r2 with
  | none => none
  | some r3 =>
    let m := r3.dropWhile jsSpace
    if m.all dotChar then some m else none

/-- Normalization of the severity token (`normalizeSeverity` in the source). -/
def normalizeSeverity (s : List Char) : LogSeverity :=
  let u := toUpper s
  if u = "INFO".toList then .INFO
  else if u = "WARNING".toList then .WARNING
  else if u = "ERROR".toList then .ERROR
  else if u = "SEVERE".toList then .SEVERE
  else if u = "DEBUG".toList then .DEBUG
  else .OTHER

/-- `parseMainLine` of `logParser.ts`: match
`^(\w+)\s+\((\d+)\),\s+(TS),\s+(\w+),\s+(\w+),\s+(.+)$` and then split the
trailing group with `^\s*(\d+(?:\/\w+)?),\s*(.*)$`; on success build the
partial event with trimmed captures and `metadata = {}`. -/
def parseMainLine (line : List Char) : Option PartialEvent := do
  let (ident, r) := line.span jsWordChar
  if ident = [] then none else do
  let (sp1, r) := r.span jsSpace
  if sp1 = [] then none else do
  let r ← expectChar '(' r
  let (num, r) := r.span Char.isDigit
  if num = [] then none else do
  let r ← expectChar ')' r
  let r ← expectChar ',' r
  let (sp2, r) := r.span jsSpace
  if sp2 = [] then none else do
  let (ts, r) ← timestampMatch r
  let r ← expectChar ',' r
  let (sp3, r) := r.span jsSpace
  if sp3 = [] then none else do
  let (scope, r) := r.span jsWordChar
  if scope = [] then none else do
  let r ← expectChar ',' r
  let (sp4, r) := r.span jsSpace
  if sp4 = [] then none else do
  let (sev, r) := r.span jsWordChar
  if sev = [] then none else do
  let r ← expectChar ',' r
  let (sp5, r) := r.span jsSpace
  if sp5 = [] then none else do
  let rest ← restCapture sp5 r
  let msg ← restMatch rest
  some { identifier := jsTrim ident,
         timestamp := jsTrim ts,
         scope := jsTrim scope,
         severity := normalizeSeverity (jsTrim sev),
         message := jsTrim msg,
         metadata := {} }

/-- Prefix match of `\s*Line:\s*(\d+)` (the unanchored tail of the inline
syntax-error regex); returns the parsed number. -/
def lineTailMatch (l : List Char) : Option Nat :=
  let l1 := l.dropWhile jsSpace
  if ("Line:".toList).isPrefixOf l1 then
    let l2 := (l1.drop 5).dropWhile jsSpace
    let ds := l2.takeWhile Char.isDigit
    if ds = [] then none else some (digitsToNat ds)
  else none

/-- Comma splits a lazy `(.+?)` group can reach, in the order a
backtracking engine tries them: ascending by prefix length, stopping at the
first character the dot cannot match (a line terminator), since the lazy
group cannot expand across it. -/
def dottedSplits : List Char → List (List Char × List Char)
  | [] => []
  | c :: cs =>
    (if c = ',' then [(([] : List Char), cs)] else []) ++
      (if dotChar c then (dottedSplits cs).map (fun p => (c :: p.1, p.2)) else [])

/-- The `([^,]+)` capture taken from the raw segment `q` between two commas,
after the preceding greedy `\s*`: the engine consumes the leading spaces
maximally first, and when that leaves the class empty it backtracks `\s*`
by one, so an all-space segment is captured as its last space; an empty
segment cannot match. -/
def pathCapture (q : List Char) : Option (List Char) :=
  let qd := q.dropWhile jsSpace
  if qd ≠ [] then some qd
  else
    match q.getLast? with
    | some c => some [c]
    | none => none

/-- Prefix match of `\s*([^,]+),\s*Line:\s*(\d+)`: the character class
cannot cross a comma, so its terminating comma is the first comma of the
remainder; the capture follows the `\s*` backtracking of `pathCapture`. -/
def pathLineMatch (r2 : List Char) :
    Option (List Char × Nat) :=
  match (splitsOn ',' r2).head? with
  | some (q, r3) =>
    match pathCapture q with
    | some cap => (lineTailMatch r3).map (fun n => (cap, n))
    | none => none
  | none => none

/-- Candidates for `\s*(.+?),` after a comma, with `r1` the raw remainder:
with the greedy `\s*` at its maximum the lazy group ranges over the comma
splits of the space-stripped remainder (ascending, non-empty capture);
only when all of those fail does the engine shrink `\s*` — which creates a
new candidate exactly when a comma directly follows the space run, captured
as the run's last space. -/
def lazyCommaCands (r1 : List Char) : List (List Char × List Char) :=
  let sp := r1.takeWhile jsSpace
  let r1d := r1.dropWhile jsSpace
  (dottedSplits r1d).filter (fun p => p.1 ≠ []) ++
    (match r1d with
     | ',' :: rest =>
       match sp.getLast? with
       | some c => if dotChar c then [([c], rest)] else []
       | none => []
     | _ => [])

/-- The inline syntax-error regex of `parseMetadataLine`,
`^(.+?),\s*(.+?),\s*([^,]+),\s*Line:\s*(\d+)` (unanchored at the end),
applied to the open event's message.  The outer lazy group is searched over
comma positions in increasing order; the inner one and the `[^,]+` class
additionally receive a donated space when the engine backtracks a greedy
`\s*` in front of an otherwise empty field (`lazyCommaCands`,
`pathCapture`). -/
def inlineErrorMatch (s : List Char) :
    Option (List Char × List Char × List Char × Nat) :=
  (dottedSplits s).findSome? fun p1 =>
    if p1.1 = [] then none
    else
      (lazyCommaCands p1.2).findSome? fun p2 =>
        (pathLineMatch p2.2).map (fun q => (p1.1, p2.1, q.1, q.2))

/-- The `(.+):(\d+)$` tail of the stacktrace-entry regex: the greedy `(.+)`
picks the last colon whose suffix is all digits (non-empty). -/
def stackTailMatch (r : List Char) : Option (List Char × Nat) :=
  ((splitsOn ':' r).filterMap fun p =>
    if p.1 ≠ [] ∧ p.1.all dotChar ∧ p.2 ≠ [] ∧ p.2.all Char.isDigit then
      some (p.1, digitsToNat p.2)
    else none).getLast?

/-- One candidate position for `\s+at\s+` inside the stacktrace-entry regex:
`acc` is the reversed function-name capture so far and `r` what follows it;
succeeds when `r` starts with a (maximal) space run, then `at`, then a
space run, and the remainder matches `(.+):(\d+)$`.  When the space run
after `at` is directly followed by a colon whose suffix is all digits, the
engine backtracks the greedy `\s+` (keeping at least one space) and the
donated last space becomes the `(.+)` capture. -/
def stackTryAt (acc r : List Char) : Option (List Char × List Char × Nat) :=
  if acc = [] then none else
  let (sp, r1) := r.span jsSpace
  if sp = [] then none else
  match r1 with
  | 'a' :: 't' :: r2 =>
    let (sp2, r3) := r2.span jsSpace
    if sp2 = [] then none else
    match stackTailMatch r3 with
    | some p => some (acc.reverse, p.1, p.2)
    | none =>
      match r3, sp2.getLast? with
      | ':' :: ds, some c =>
        if ds ≠ [] ∧ ds.all Char.isDigit ∧ dotChar c ∧ 2 ≤ sp2.length then
          some (acc.reverse, [c], digitsToNat ds)
        else none
      | _, _ => none
  | _ => none

/-- Scan for the lazy `(.+?)\s+at\s+` split: positions are tried left to
right, extending the function-name capture one character at a time. -/
def stackSearch (acc : List Char) : List Char → Option (List Char × List Char × Nat)
  | [] => stackTryAt acc []
  | c :: r =>
    match stackTryAt acc (c :: r) with
    | some v => some v
    | none => if dotChar c then stackSearch (c :: acc) r else none

/-- Backtracking of the first `\s+` of `^(\d+):\s+(.+?)\s+at\s+…`: the
greedy space run is tried longest first, handing spaces over to the lazy
function-name capture only when no later split succeeds.  `d` is the number
of spaces beyond the mandatory first one still consumed by `\s+`. -/
def stackFromD (s1 : List Char) : Nat → Option (List Char × List Char × Nat)
  | 0 => stackSearch [] s1
  | d + 1 =>
    match stackSearch [] (s1.drop (d + 1)) with
    | some v => some v
    | none => stackFromD s1 d

/-- The stacktrace-entry regex of `parseMetadataLine`,
`^(\d+):\s+(.+?)\s+at\s+(.+):(\d+)$`, applied to the trimmed line.
The greedy space runs are tried longest first and hand spaces over to the
neighbouring captures only when no match exists otherwise (`stackFromD`
for the run after the colon, `stackTryAt` for the run after `at`). -/
def stackEntryMatch (trimmed : List Char) : Option StacktraceEntry :=
  let (idx, r) := trimmed.span Char.isDigit
  if idx = [] then none else
  match r with
  | ':' :: s0 =>
    let run := s0.takeWhile jsSpace
    if run = [] then none else
    (stackFromD (s0.drop 1) (run.length - 1)).map fun p =>
      { index := digitsToNat idx,
        functionName := jsTrim p.1,
        filePath := jsTrim p.2.1,
        line := p.2.2 }
  | _ => none

/-- `push` onto `metadata.stacktrace` (the source asserts the array exists
with `!`; it is always created together with `stacktraceMode`). -/
def pushStack (pe : PartialEvent) (e : StacktraceEntry) : PartialEvent :=
  { pe with metadata :=
      { pe.metadata with
        stacktrace := some ((pe.metadata.stacktrace.getD []) ++ [e]) } }

/-- The `Script:` / `Library:` / `Line:` / raw fall-through chain at the end
of `parseMetadataLine`. -/
def plainMeta (pe : PartialEvent) (trimmed : List Char) : PartialEvent :=
  if ("Script:".toList).isPrefixOf trimmed then
    { pe with metadata := { pe.metadata with script := some (jsTrim (trimmed.drop 7)) } }
  else if ("Library:".toList).isPrefixOf trimmed then
    { pe with metadata := { pe.metadata with library := some (jsTrim (trimmed.drop 8)) } }
  else if ("Line:".toList).isPrefixOf trimmed then
    let lc := jsTrim (trimmed.drop 5)
    let ds := lc.takeWhile Char.isDigit
    if ds = [] then pe
    else { pe with metadata := { pe.metadata with line := some (digitsToNat ds) } }
  else if trimmed ≠ [] then
    { pe with metadata :=
        { pe.metadata with
          raw := some (match pe.metadata.raw with
                       | none => trimmed
                       | some r => r ++ '\n' :: trimmed) } }
  else pe

/-- `parseMetadataLine` of `logParser.ts`, as a function of the open partial
event, the `stacktraceMode` flag and the raw line; returns the updated event
and flag. -/
def parseMetadataLine (pe : PartialEvent) (stMode : Bool) (line : List Char) :
    PartialEvent × Bool :=
  let trimmed := jsTrim line
  if trimmed = "Stacktrace:".toList then
    ({ pe with metadata := { pe.metadata with stacktrace := some [] } }, true)
  else if stMode then
    match stackEntryMatch trimmed with
    | some e => (pushStack pe e, stMode)
    | none => (pe, stMode)
  else if containsSub (toLower pe.message) ("syntax error".toList) then
    match inlineErrorMatch pe.message with
    | some (et, d, p, n) =>
      ({ pe with
         message := jsTrim et ++ (", ".toList) ++ jsTrim d,
         metadata := { pe.metadata with library := some (jsTrim p), line := some n } },
       stMode)
    | none => (plainMeta pe trimmed, stMode)
  else (plainMeta pe trimmed, stMode)

/-- Does the metadata object have at least one assigned key
(`Object.keys(metadata).length > 0`)? -/
def metadataPresent (m : LogMetadata) : Bool :=
  m.script.isSome || m.library.isSome || m.line.isSome ||
    m.stacktrace.isSome || m.raw.isSome

/-- The completed `LogEvent` assembled by `finalizeEvent` from the partial
event and the line buffer (with the source's falsy-value fallbacks for
`timestamp`, `scope`, `severity` and `message`; of these only the `scope`
one is not the identity). -/
def buildEvent (pe : PartialEvent) (buf : List (List Char)) : LogEvent :=
  { identifier := pe.identifier,
    timestamp := pe.timestamp,
    scope := if pe.scope = [] then "UNKNOWN".toList else pe.scope,
    severity := pe.severity,
    message := pe.message,
    metadata := if metadataPresent pe.metadata then some pe.metadata else none,
    rawLines := buf }

/-- `finalizeEvent` of `logParser.ts`: discards an event without an
identifier; otherwise emits it, attaching `metadata` only when non-empty,
and resets the parser state. -/
def finalizeEvent (st : ParserState) : ParserState × Option LogEvent :=
  match st.currentEvent with
  | none => ({ st with currentEvent := none, buffer := [] }, none)
  | some pe =>
    if pe.identifier = [] then
      ({ st with currentEvent := none, buffer := [] }, none)
    else
      ({ buffer := [], currentEvent := none, stacktraceMode := false },
       some (buildEvent pe st.buffer))

/-- `parseLine` of `logParser.ts` (`consumeLine` in the specification):
returns the new parser state and the list of completed events (zero or one). -/
def parseLine (st : ParserState) (line : List Char) : ParserState × List LogEvent :=
  match parseMainLine line with
  | some pe =>
    let completed := (finalizeEvent st).2
    ({ buffer := [line], currentEvent := some pe, stacktraceMode := false },
     match completed with
     | some e => [e]
     | none => [])
  | none =>
    match st.currentEvent with
    | some pe =>
      let (pe', m') := parseMetadataLine pe st.stacktraceMode line
      ({ buffer := st.buffer ++ [line], currentEvent := some pe', stacktraceMode := m' }, [])
    | none => (st, [])

/-- `flush` of `logParser.ts`. -/
def flush (st : ParserState) : ParserState × Option LogEvent :=
  match st.currentEvent with
  | some _ => finalizeEvent st
  | none => (st, none)

/-- Feed a list of lines through `parseLine`, collecting completed events. -/
def runLines (st : ParserState) : List (List Char) → ParserState × List LogEvent
  | [] => (st, [])
  | l :: ls =>
    let (st1, evs) := parseLine st l
    let (st2, evs') := runLines st1 ls
    (st2, evs ++ evs')

/-- All events produced by feeding `lines` from a fresh parser and flushing
at the end (the emission pattern of both `parseLogFile` and the watcher
followed by end-of-stream). -/
def eventsOf (lines : List (List Char)) : List LogEvent :=
  let (st, evs) := runLines initialParserState lines
  match (flush st).2 with
  | some e => evs ++ [e]
  | none => evs

/-- `content.split('\n')` of `parseLogFile`. -/
def splitOnNl : List Char → List (List Char)
  | [] => [[]]
  | '\n' :: rest => [] :: splitOnNl rest
  | c :: rest =>
    match splitOnNl rest with
    | [] => [[c]]
    | h :: t => (c :: h) :: t

/-- `parseLogFile` of `logParser.ts`. -/
def parseLogFile (content : List Char) : List LogEvent :=
  eventsOf (splitOnNl content)

/-- `parseGenericLogLine` of `logParser.ts`; `now` models
`new Date().toISOString()`, an external input. -/
def parseGenericLogLine (line fileName now : List Char) : Option LogEvent :=
  if jsTrim line = [] then none
  else
    some { identifier := "GENERIC".toList,
           timestamp := now,
           scope := "OTHER".toList,
           severity := .OTHER,
           message := line,
           metadata := some { script := none, library := none, line := none,
                              stacktrace := none,
                              raw := some ("From: ".toList ++ fileName) },
           rawLines := [line] }

/-- Lookup in an insertion-ordered association list (model of `Map.get`). -/
def lookupKey {V : Type} (k : List Char) : List (List Char × V) → Option V
  | [] => none
  | (k', v) :: rest => if k' = k then some v else lookupKey k rest

/-- Update/insert in an insertion-ordered association list (model of
`Map.set`). -/
def insertKey {V : Type} (k : List Char) (v : V) :
    List (List Char × V) → List (List Char × V)
  | [] => [(k, v)]
  | (k', v') :: rest =>
    if k' = k then (k, v) :: rest else (k', v') :: insertKey k v rest

/-- State of a `LogFileWatcher`: per-file parsers and read positions, keyed
by the lower-cased absolute path, plus the pause and init flags. -/
structure LogFileWatcherState where
  parsers : List (List Char × ParserState)
  filePositions : List (List Char × Nat)
  isPaused : Bool
  isInitialized : Bool
deriving Repr, DecidableEq

/-- Outcome of the filesystem interaction of one change notification:
`statErr` models `fs.statSync` throwing; `readErr` models the read stream
emitting `error` (after a successful stat of `size`); `ok content` models a
successful stat and read, with `content` the file's full decoded text (one
byte per character), so `stats.size = content.length` and the stream read
from offset `o` yields `content.drop o`. -/
inductive FsView where
  | statErr
  | readErr (size : Nat)
  | ok (content : List Char)
deriving Repr, DecidableEq

/-- Path separator characters (`path.basename`, win32 flavour). -/
def isSep (c : Char) : Bool := c = '/' || c = '\\'

/-- `path.basename`: last path component, ignoring trailing separators. -/
def basename (p : List Char) : List Char :=
  let r := p.reverse.dropWhile isSep
  (r.takeWhile (fun c => !isSep c)).reverse

/-- `buffer.split(/\r?\n/)`: split at every `\n` or `\r\n`; a lone `\r` is
not a separator. -/
def splitCrLf : List Char → List (List Char)
  | [] => [[]]
  | '\r' :: '\n' :: rest => [] :: splitCrLf rest
  | '\n' :: rest => [] :: splitCrLf rest
  | c :: rest =>
    match splitCrLf rest with
    | [] => [[c]]
    | h :: t => (c :: h) :: t

/-- The per-line loop of the `PVSS_II.log` branch: lines whose trim is
empty are skipped, the rest go through `parseLine`. -/
def processPrimaryLines (st : ParserState) :
    List (List Char) → ParserState × List LogEvent
  | [] => (st, [])
  | l :: ls =>
    if jsTrim l = [] then processPrimaryLines st ls
    else
      let (st1, evs) := parseLine st l
      let (st2, evs') := processPrimaryLines st1 ls
      (st2, evs ++ evs')

/-- The stream `end` callback of `handleFileChange`: split the newly read
text into lines and route them to the file's own parser (primary log) or to
`parseGenericLogLine` (any other file).  Returns the updated parsers map
and the emitted events; the caller also advances the offset. -/
def processRange (st : LogFileWatcherState) (key fileName now newText : List Char) :
    List (List Char × ParserState) × List LogEvent :=
  let lines := (splitCrLf newText).filter (fun l => l ≠ [])
  if fileName = "PVSS_II.log".toList then
    let parser := (lookupKey key st.parsers).getD initialParserState
    let (parser', events) := processPrimaryLines parser lines
    (insertKey key parser' st.parsers, events)
  else
    (st.parsers,
     lines.filterMap (fun l => if jsTrim l = [] then none else parseGenericLogLine l fileName now))

/-- `handleFileChange` of `logFileWatcher.ts` as a state transformer.
Notifications before the initial inventory are ignored; a stat failure is
caught and logged; a first-seen key bootstraps the offset to the current
size without reading; a file that did not grow is skipped; while paused the
offset is advanced without reading; a stream read error only logs (the
`end` callback that advances the offset never runs); on a successful read
the new byte range is processed and the offset advanced. -/
def handleFileChange (st : LogFileWatcherState) (path : List Char)
    (view : FsView) (now : List Char) : LogFileWatcherState × List LogEvent :=
  if st.isInitialized = false then (st, [])
  else
    match view with
    | .statErr => (st, [])
    | .readErr currentSize =>
      let key := toLower path
      match lookupKey key st.filePositions with
      | none =>
        ({ st with filePositions := insertKey key currentSize st.filePositions }, [])
      | some lastPosition =>
        if currentSize ≤ lastPosition then (st, [])
        else if st.isPaused then
          ({ st with filePositions := insertKey key currentSize st.filePositions }, [])
        else (st, [])
    | .ok content =>
      let currentSize := content.length
      let key := toLower path
      match lookupKey key st.filePositions with
      | none =>
        ({ st with filePositions := insertKey key currentSize st.filePositions }, [])
      | some lastPosition =>
        if currentSize ≤ lastPosition then (st, [])
        else if st.isPaused then
          ({ st with filePositions := insertKey key currentSize st.filePositions }, [])
        else
          let (parsers', events) :=
            processRange st key (basename path) now (content.drop lastPosition)
          ({ st with parsers := parsers',
                     filePositions := insertKey key currentSize st.filePositions },
           events)

/-- Well-formedness of every emitted event: non-empty identifier, raw lines
starting with a main-shaped line followed only by non-main lines, and
metadata attached only when some field was populated. -/
def goodEvent (e : LogEvent) : Prop :=
  e.identifier ≠ [] ∧
  (∃ m rest, e.rawLines = m :: rest ∧ (parseMainLine m).isSome ∧
      ∀ l ∈ rest, parseMainLine l = none) ∧
  (∀ md, e.metadata = some md → metadataPresent md = true)

/-- Invariant of reachable parser states: with no open event the buffer is
empty; with an open event the identifier is non-empty and the buffer holds
the main line followed by the continuation lines. -/
def stOK (st : ParserState) : Prop :=
  (st.currentEvent = none → st.buffer = []) ∧
  ∀ pe, st.currentEvent = some pe →
    pe.identifier ≠ [] ∧
    ∃ m rest, st.buffer = m :: rest ∧ (parseMainLine m).isSome ∧
      ∀ l ∈ rest, parseMainLine l = none

/-! Concrete inputs used by witnesses and counterexamples. -/

def exMain1 : List Char :=
  "WCCOActrl    (4), 2025.11.16 18:56:26.972, CTRL, WARNING,     5, this is a warning".toList

def exMain2 : List Char :=
  "WCCILdata   (2), 2025.11.16 18:56:27.100, SYS, INFO,     3, second event".toList

def exContScript : List Char := "    Script: foo.ctl".toList

def exContSyn : List Char :=
  "Syntax error, brace unexpected, /a/b.ctl, Line: 29".toList

def exMainContains : List Char :=
  "WCCOActrl (2), 2025.11.16 18:56:26.972, CTRL, ERROR, 5, Syntax error detected".toList

def exMainInline : List Char :=
  "WCCOActrl (2), 2025.11.16 18:56:26.972, CTRL, ERROR, 5, Syntax error, brace unexpected, /a/b.ctl, Line: 29".toList

def exLineX : List Char := "Line: x".toList

def exStackPe : PartialEvent :=
  { identifier := ['a'], timestamp := [], scope := [], severity := .OTHER,
    message := [], metadata := { stacktrace := some [⟨1, ['f'], ['a'], 5⟩] } }

def exSynPe : PartialEvent :=
  { identifier := "WCCOActrl".toList, timestamp := [], scope := "CTRL".toList,
    severity := .ERROR, message := exContSyn, metadata := {} }

def exPvssPath : List Char := "/logs/PVSS_II.log".toList

def exUiPath : List Char := "/logs/UI.log".toList

def exKnownSt : LogFileWatcherState :=
  { parsers := [], filePositions := [(toLower exPvssPath, 2)],
    isPaused := false, isInitialized := true }

def exPausedSt : LogFileWatcherState := { exKnownSt with isPaused := true }

def exUiSt : LogFileWatcherState :=
  { parsers := [], filePositions := [(toLower exUiPath, 0)],
    isPaused := false, isInitialized := true }

def exFreshSt : LogFileWatcherState :=
  { parsers := [], filePositions := [], isPaused := false, isInitialized := true }

/-! ## Basic lemmas about the embedding -/

theorem word_not_space (c : Char) (h : jsWordChar c = true) : jsSpace c = false := by
  unfold jsWordChar at h
  unfold jsSpace
  simp only [Bool.or_eq_true, Bool.and_eq_true, decide_eq_true_eq] at h
  simp only [Bool.or_eq_false_iff, Bool.and_eq_false_iff, decide_eq_false_iff_not]
  omega

theorem dropWhile_eq_self_of_no (p : Char → Bool) (l : List Char)
    (h : ∀ c ∈ l, p c = false) : l.dropWhile p = l := by
  cases l with
  | nil => rfl
  | cons a as => simp [List.dropWhile, h a (by simp)]

theorem jsTrim_of_all_word (l : List Char)
    (hw : ∀ c ∈ l, jsWordChar c = true) : jsTrim l = l := by
  unfold jsTrim
  rw [dropWhile_eq_self_of_no _ _ (fun c hc => word_not_space c (hw c hc))]
  rw [dropWhile_eq_self_of_no _ _
    (fun c hc => word_not_space c (hw c (List.mem_reverse.mp hc)))]
  exact l.reverse_reverse

theorem takeWhile_all (p : Char → Bool) (l : List Char) :
    ∀ c ∈ l.takeWhile p, p c = true := by
  intro c hc
  exact List.mem_takeWhile_imp hc

theorem span_fst_all (p : Char → Bool) (l : List Char) :
    ∀ c ∈ (l.span p).1, p c = true := by
  rw [List.span_eq_take_drop]
  intro c hc
  exact List.mem_takeWhile_imp hc

theorem parseMainLine_shape (line : List Char) (pe : PartialEvent)
    (h : parseMainLine line = some pe) :
    pe.identifier = jsTrim (line.span jsWordChar).1 ∧
      (line.span jsWordChar).1 ≠ [] := by
  unfold parseMainLine at h
  rcases hspan : line.span jsWordChar with ⟨ident, r0⟩
  rw [hspan] at h
  dsimp only at h
  by_cases hid : ident = []
  · rw [if_pos hid] at h; cases h
  · rw [if_neg hid] at h
    refine ⟨?_, hid⟩
    simp only [bind, Option.bind] at h
    repeat' first
      | split at h
      | simp only [] at h
    all_goals (cases h; try rfl)

theorem parseMainLine_identifier_ne (line : List Char) (pe : PartialEvent)
    (h : parseMainLine line = some pe) : pe.identifier ≠ [] := by
  obtain ⟨heq, hne⟩ := parseMainLine_shape line pe h
  rw [heq, jsTrim_of_all_word _ (span_fst_all _ _)]
  exact hne

theorem parseMetadataLine_identifier (pe : PartialEvent) (stMode : Bool)
    (line : List Char) :
    ((parseMetadataLine pe stMode line).1).identifier = pe.identifier := by
  unfold parseMetadataLine plainMeta pushStack
  repeat' first
    | split
    | simp only [] at *

theorem finalizeEvent_closed (st : ParserState) (h : st.currentEvent = none) :
    finalizeEvent st = ({ st with currentEvent := none, buffer := [] }, none) := by
  unfold finalizeEvent
  rw [h]

theorem finalizeEvent_open (st : ParserState) (pe : PartialEvent)
    (h : st.currentEvent = some pe) (hid : pe.identifier ≠ []) :
    finalizeEvent st = (initialParserState, some (buildEvent pe st.buffer)) := by
  unfold finalizeEvent
  rw [h]
  simp only [if_neg hid]
  rfl

theorem parseLine_main (st : ParserState) (l : List Char) (pe : PartialEvent)
    (h : parseMainLine l = some pe) :
    parseLine st l =
      ({ buffer := [l], currentEvent := some pe, stacktraceMode := false },
       ((finalizeEvent st).2).toList) := by
  unfold parseLine
  rw [h]
  cases hf : (finalizeEvent st).2 <;> simp [hf]

theorem parseLine_cont (st : ParserState) (l : List Char) (pe : PartialEvent)
    (hm : parseMainLine l = none) (hc : st.currentEvent = some pe) :
    parseLine st l =
      ({ buffer := st.buffer ++ [l],
         currentEvent := some (parseMetadataLine pe st.stacktraceMode l).1,
         stacktraceMode := (parseMetadataLine pe st.stacktraceMode l).2 }, []) := by
  unfold parseLine
  rw [hm, hc]

theorem parseLine_skip (st : ParserState) (l : List Char)
    (hm : parseMainLine l = none) (hc : st.currentEvent = none) :
    parseLine st l = (st, []) := by
  unfold parseLine
  rw [hm, hc]

theorem flush_closed (st : ParserState) (h : st.currentEvent = none) :
    flush st = (st, none) := by
  unfold flush
  rw [h]

theorem flush_open (st : ParserState) (pe : PartialEvent)
    (h : st.currentEvent = some pe) (hid : pe.identifier ≠ []) :
    flush st = (initialParserState, some (buildEvent pe st.buffer)) := by
  unfold flush
  rw [h]
  exact finalizeEvent_open st pe h hid

theorem runLines_nil (st : ParserState) : runLines st [] = (st, []) := rfl

theorem runLines_cons (st : ParserState) (l : List Char) (ls : List (List Char)) :
    runLines st (l :: ls) =
      ((runLines (parseLine st l).1 ls).1,
       (parseLine st l).2 ++ (runLines (parseLine st l).1 ls).2) := by
  conv_lhs => unfold runLines

theorem eventsOf_eq (lines : List (List Char)) :
    eventsOf lines =
      (runLines initialParserState lines).2 ++
        ((flush (runLines initialParserState lines).1).2).toList := by
  unfold eventsOf
  rcases h : runLines initialParserState lines with ⟨st, evs⟩
  cases hf : (flush st).2 <;> simp [h, hf]

theorem stOK_initial : stOK initialParserState :=
  ⟨fun _ => rfl, fun _ h => by cases h⟩

theorem buildEvent_good (pe : PartialEvent) (buf : List (List Char))
    (hid : pe.identifier ≠ [])
    (hbuf : ∃ m rest, buf = m :: rest ∧ (parseMainLine m).isSome ∧
        ∀ l ∈ rest, parseMainLine l = none) :
    goodEvent (buildEvent pe buf) := by
  refine ⟨hid, ?_, ?_⟩
  · simpa [buildEvent] using hbuf
  · intro md hmd
    unfold buildEvent at hmd
    dsimp only at hmd
    by_cases hp : metadataPresent pe.metadata = true
    · rw [if_pos hp] at hmd
      cases hmd
      exact hp
    · rw [if_neg hp] at hmd
      cases hmd

theorem parseLine_stOK (st : ParserState) (l : List Char) (h : stOK st) :
    stOK (parseLine st l).1 ∧ ∀ e ∈ (parseLine st l).2, goodEvent e := by
  cases hm : parseMainLine l with
  | some pe =>
    rw [parseLine_main st l pe hm]
    constructor
    · refine ⟨fun hc => Option.noConfusion hc, fun pe' hpe' => ?_⟩
      cases hpe'
      exact ⟨parseMainLine_identifier_ne l pe hm, l, [], rfl, by rw [hm]; rfl,
        by simp⟩
    · intro e he
      cases hcur : st.currentEvent with
      | none =>
        rw [finalizeEvent_closed st hcur] at he
        cases he
      | some pe0 =>
        obtain ⟨hid0, hbuf0⟩ := h.2 pe0 hcur
        rw [finalizeEvent_open st pe0 hcur hid0] at he
        simp only [Option.toList_some, List.mem_singleton] at he
        subst he
        exact buildEvent_good pe0 st.buffer hid0 hbuf0
  | none =>
    cases hcur : st.currentEvent with
    | none =>
      rw [parseLine_skip st l hm hcur]
      exact ⟨h, by simp⟩
    | some pe =>
      rw [parseLine_cont st l pe hm hcur]
      refine ⟨⟨fun hc => Option.noConfusion hc, fun pe' hpe' => ?_⟩, by simp⟩
      cases hpe'
      obtain ⟨hid, m, rest, hbuf, hmain, hrest⟩ := h.2 pe hcur
      refine ⟨?_, m, rest ++ [l], by rw [hbuf]; simp, hmain, ?_⟩
      · rw [parseMetadataLine_identifier]
        exact hid
      · intro l' hl'
        rcases List.mem_append.mp hl' with h1 | h1
        · exact hrest l' h1
        · simp only [List.mem_singleton] at h1
          subst h1
          exact hm

theorem flush_goodEvent (st : ParserState) (h : stOK st) (e : LogEvent)
    (he : (flush st).2 = some e) : goodEvent e := by
  cases hcur : st.currentEvent with
  | none =>
    rw [flush_closed st hcur] at he
    cases he
  | some pe =>
    obtain ⟨hid, hbuf⟩ := h.2 pe hcur
    rw [flush_open st pe hcur hid] at he
    cases he
    exact buildEvent_good pe st.buffer hid hbuf

theorem runLines_stOK (ls : List (List Char)) : ∀ st, stOK st →
    stOK (runLines st ls).1 ∧ ∀ e ∈ (runLines st ls).2, goodEvent e := by
  induction ls with
  | nil =>
    intro st h
    rw [runLines_nil]
    exact ⟨h, by simp⟩
  | cons l ls ih =>
    intro st h
    rw [runLines_cons]
    obtain ⟨h1, h2⟩ := parseLine_stOK st l h
    obtain ⟨h3, h4⟩ := ih (parseLine st l).1 h1
    refine ⟨h3, ?_⟩
    intro e he
    rcases List.mem_append.mp he with h5 | h5
    · exact h2 e h5
    · exact h4 e h5

theorem allRaw_eq (ls : List (List Char)) : ∀ st, stOK st →
    (((runLines st ls).2 ++ ((flush (runLines st ls).1).2).toList).flatMap
        (fun e => e.rawLines))
      = (if st.currentEvent.isSome then st.buffer ++ ls
         else ls.dropWhile (fun l => (parseMainLine l).isNone)) := by
  induction ls with
  | nil =>
    intro st h
    rw [runLines_nil]
    cases hcur : st.currentEvent with
    | none =>
      rw [flush_closed st hcur]
      simp [hcur, h.1 hcur]
    | some pe =>
      obtain ⟨hid, _⟩ := h.2 pe hcur
      rw [flush_open st pe hcur hid]
      simp [hcur, buildEvent]
  | cons l ls ih =>
    intro st h
    rw [runLines_cons]
    have hst1 : stOK (parseLine st l).1 := (parseLine_stOK st l h).1
    have IH := ih (parseLine st l).1 hst1
    rw [List.append_assoc, List.flatMap_append, IH]
    cases hm : parseMainLine l with
    | some pe =>
      rw [parseLine_main st l pe hm]
      cases hcur : st.currentEvent with
      | none =>
        rw [finalizeEvent_closed st hcur]
        simp [hcur, hm, List.dropWhile_cons, h.1 hcur]
      | some pe0 =>
        obtain ⟨hid0, _⟩ := h.2 pe0 hcur
        rw [finalizeEvent_open st pe0 hcur hid0]
        simp [hcur, buildEvent]
    | none =>
      cases hcur : st.currentEvent with
      | none =>
        rw [parseLine_skip st l hm hcur]
        simp [hcur, hm, List.dropWhile_cons]
      | some pe0 =>
        rw [parseLine_cont st l pe0 hm hcur]
        simp [hcur]

/-- Claim C6: every event emitted by the reassembler (via `consumeLine` or
`flush`) has a non-empty identifier, raw lines consisting of the main line
that started it followed by its (non-main) continuation lines, and a
metadata object only when at least one field was populated; moreover the
emitted raw lines, concatenated over all events in order, are exactly the
input lines from the first main line on. -/
theorem C6_emitted_event_invariant (lines : List (List Char)) :
    (∀ e ∈ eventsOf lines,
      e.identifier ≠ [] ∧
      (∃ m rest, e.rawLines = m :: rest ∧ (parseMainLine m).isSome ∧
          ∀ l ∈ rest, parseMainLine l = none) ∧
      (∀ md, e.metadata = some md → metadataPresent md = true)) ∧
    (eventsOf lines).flatMap (fun e => e.rawLines)
      = lines.dropWhile (fun l => (parseMainLine l).isNone) := by
  constructor
  · intro e he
    rw [eventsOf_eq] at he
    rcases List.mem_append.mp he with h1 | h1
    · exact (runLines_stOK lines initialParserState stOK_initial).2 e h1
    · have hOK := (runLines_stOK lines initialParserState stOK_initial).1
      cases hf : (flush (runLines initialParserState lines).1).2 with
      | none => rw [hf] at h1; cases h1
      | some e' =>
        rw [hf] at h1
        simp only [Option.toList_some, List.mem_singleton] at h1
        subst h1
        exact flush_goodEvent _ hOK e hf
  · rw [eventsOf_eq]
    have := allRaw_eq lines initialParserState stOK_initial
    simpa [initialParserState] using this

/-- Witness for C6 at a concrete input. -/
theorem C6_emitted_event_invariant_witness :
    (eventsOf [exMain1, exContScript]).flatMap (fun e => e.rawLines)
      = [exMain1, exContScript] := by
  have h := (C6_emitted_event_invariant [exMain1, exContScript]).2
  rw [h]
  decide

/-- Claim C8: `flush` is idempotent — after any reachable parser history,
flushing twice returns nothing the second time; `flush` returns nothing
when no event is open, and with an open event it returns the finalized
event and leaves no open event. -/
theorem C8_flush_idempotent (lines : List (List Char)) :
    (flush (flush (runLines initialParserState lines).1).1).2 = none ∧
    ((runLines initialParserState lines).1.currentEvent = none →
      (flush (runLines initialParserState lines).1).2 = none) ∧
    ((runLines initialParserState lines).1.currentEvent.isSome →
      ∃ e, (flush (runLines initialParserState lines).1).2 = some e ∧
        (flush (runLines initialParserState lines).1).1.currentEvent = none) := by
  have hOK := (runLines_stOK lines initialParserState stOK_initial).1
  refine ⟨?_, ?_, ?_⟩
  · cases hcur : (runLines initialParserState lines).1.currentEvent with
    | none =>
      rw [flush_closed _ hcur, flush_closed _ hcur]
    | some pe =>
      obtain ⟨hid, _⟩ := hOK.2 pe hcur
      rw [flush_open _ pe hcur hid]
      rw [flush_closed _ rfl]
  · intro hcur
    rw [flush_closed _ hcur]
  · intro hsome
    obtain ⟨pe, hcur⟩ := Option.isSome_iff_exists.mp hsome
    obtain ⟨hid, _⟩ := hOK.2 pe hcur
    rw [flush_open _ pe hcur hid]
    exact ⟨_, rfl, rfl⟩

/-- Witness for C8 at a concrete input with an open event. -/
theorem C8_flush_idempotent_witness :
    (flush (flush (runLines initialParserState [exMain1]).1).1).2 = none ∧
    ((runLines initialParserState [exMain1]).1.currentEvent.isSome = true) := by
  refine ⟨(C8_flush_idempotent [exMain1]).1, ?_⟩
  decide

theorem runLines_conts (conts : List (List Char)) : ∀ st pe,
    st.currentEvent = some pe → (∀ l ∈ conts, parseMainLine l = none) →
    (runLines st conts).2 = [] ∧
    (runLines st conts).1.buffer = st.buffer ++ conts ∧
    ∃ pe', (runLines st conts).1.currentEvent = some pe' ∧
      pe'.identifier = pe.identifier := by
  induction conts with
  | nil =>
    intro st pe h _
    rw [runLines_nil]
    exact ⟨rfl, by simp, pe, h, rfl⟩
  | cons l ls ih =>
    intro st pe h hc
    rw [runLines_cons]
    have hm := hc l (by simp)
    rw [parseLine_cont st l pe hm h]
    obtain ⟨h1, h2, pe', h3, h4⟩ :=
      ih { buffer := st.buffer ++ [l],
           currentEvent := some (parseMetadataLine pe st.stacktraceMode l).1,
           stacktraceMode := (parseMetadataLine pe st.stacktraceMode l).2 }
        (parseMetadataLine pe st.stacktraceMode l).1 rfl
        (fun l' hl' => hc l' (by simp [hl']))
    refine ⟨by simp [h1], ?_, pe', h3, ?_⟩
    · rw [h2]
      simp
    · rw [h4, parseMetadataLine_identifier]

/-- Claim C1: one-behind reassembly.  Feeding a main line and its non-main
continuations yields no event; the event appears exactly when the next main
line is consumed, and it is the previously open event (what `flush` would
have returned); a subsequent `flush` returns the event started by the
second main line. -/
theorem C1_one_behind_reassembly (main1 main2 : List Char)
    (conts : List (List Char))
    (h1 : (parseMainLine main1).isSome)
    (hc : ∀ l ∈ conts, parseMainLine l = none)
    (h2 : (parseMainLine main2).isSome) :
    (runLines initialParserState (main1 :: conts)).2 = [] ∧
    ∃ e1 e2,
      (flush (runLines initialParserState (main1 :: conts)).1).2 = some e1 ∧
      (parseLine (runLines initialParserState (main1 :: conts)).1 main2).2 = [e1] ∧
      (flush (parseLine (runLines initialParserState (main1 :: conts)).1 main2).1).2
        = some e2 ∧
      (flush (parseLine initialParserState main2).1).2 = some e2 := by
  obtain ⟨pe1, hm1⟩ := Option.isSome_iff_exists.mp h1
  obtain ⟨pe2, hm2⟩ := Option.isSome_iff_exists.mp h2
  have hpl1 : parseLine initialParserState main1
      = ({ buffer := [main1], currentEvent := some pe1, stacktraceMode := false },
         []) := by
    rw [parseLine_main _ _ _ hm1, finalizeEvent_closed _ rfl]
    rfl
  obtain ⟨hev, hbuf, pe', hcur', hid'⟩ :=
    runLines_conts conts
      { buffer := [main1], currentEvent := some pe1, stacktraceMode := false }
      pe1 rfl hc
  have hidne : pe'.identifier ≠ [] := by
    rw [hid']
    exact parseMainLine_identifier_ne _ _ hm1
  rw [runLines_cons, hpl1]
  dsimp only
  refine ⟨by simp [hev], ?_⟩
  refine ⟨buildEvent pe' ([main1] ++ conts), buildEvent pe2 [main2], ?_, ?_, ?_, ?_⟩
  · rw [flush_open _ pe' hcur' hidne, hbuf]
  · rw [parseLine_main _ _ _ hm2, finalizeEvent_open _ pe' hcur' hidne, hbuf]
    rfl
  · rw [parseLine_main _ _ _ hm2]
    dsimp only
    rw [flush_open _ pe2 rfl (parseMainLine_identifier_ne _ _ hm2)]
  · rw [parseLine_main _ _ _ hm2]
    dsimp only
    rw [flush_open _ pe2 rfl (parseMainLine_identifier_ne _ _ hm2)]

/-- Witness for C1 at concrete lines. -/
theorem C1_one_behind_reassembly_witness :
    (runLines initialParserState (exMain1 :: [exContScript])).2 = [] ∧
    ∃ e1 e2,
      (flush (runLines initialParserState (exMain1 :: [exContScript])).1).2 = some e1 ∧
      (parseLine (runLines initialParserState (exMain1 :: [exContScript])).1 exMain2).2
        = [e1] ∧
      (flush (parseLine (runLines initialParserState (exMain1 :: [exContScript])).1
          exMain2).1).2 = some e2 ∧
      (flush (parseLine initialParserState exMain2).1).2 = some e2 :=
  C1_one_behind_reassembly exMain1 exMain2 [exContScript] (by decide)
    (by intro l hl; simp at hl; subst hl; decide) (by decide)

/-- Claim C9: while an event is open, consuming a line whose trimmed form
is the literal `Stacktrace:` header resets the open event's stacktrace
metadata to the empty sequence and (re-)enters stack-capture mode,
regardless of the current mode and of any entries captured so far — the
literal header check runs before the stack-capture branch. -/
theorem C9_stacktrace_header_resets (pe : PartialEvent) (mode : Bool)
    (line : List Char) (h : jsTrim line = "Stacktrace:".toList) :
    parseMetadataLine pe mode line =
      ({ pe with metadata := { pe.metadata with stacktrace := some [] } },
       true) := by
  unfold parseMetadataLine
  simp only [h, if_pos]

/-- Witness for C9: a second header line resets a non-empty captured
stacktrace. -/
theorem C9_stacktrace_header_resets_witness :
    parseMetadataLine exStackPe true ("  Stacktrace:".toList) =
      ({ exStackPe with
         metadata := { exStackPe.metadata with stacktrace := some [] } },
       true) :=
  C9_stacktrace_header_resets exStackPe true ("  Stacktrace:".toList) (by decide)

/-- Counterexample to claim C2 as stated: a main line whose message merely
contains "Syntax error", followed by a continuation line whose trimmed form
matches the shape `ERRORTYPE, DETAIL, PATH, Line: N`, is not rewritten —
the shape is matched against the open event's message, not against the
continuation line, so the finalized message stays unchanged and no library
or line metadata is set. -/
theorem C2_counterexample :
    (eventsOf [exMainContains, exContSyn]).map
        (fun e => (e.message, e.metadata.map (fun m => (m.library, m.line))))
      = [("Syntax error detected".toList, some (none, none))] ∧
    ("Syntax error detected".toList : List Char)
      ≠ "Syntax error, brace unexpected".toList := by
  exact ⟨by decide, by decide⟩

/-- Amended claim C2: the shape `ERRORTYPE, DETAIL, PATH, Line: N` is
matched against the open event's *message*, not the continuation line.
When the reassembler is not in stack-capture mode and consumes any
continuation whose trimmed form is not the `Stacktrace:` header, while the
open event's message case-insensitively contains "syntax error" and itself
matches the shape, the message is rewritten to `ERRORTYPE, DETAIL` and the
metadata gets `library = PATH` and `line = N`. -/
theorem C2_amended_message_rewrite (pe : PartialEvent) (line : List Char)
    (et d p : List Char) (n : Nat)
    (ht : jsTrim line ≠ "Stacktrace:".toList)
    (hs : containsSub (toLower pe.message) ("syntax error".toList) = true)
    (hm : inlineErrorMatch pe.message = some (et, d, p, n)) :
    parseMetadataLine pe false line =
      ({ pe with
         message := jsTrim et ++ (", ".toList) ++ jsTrim d,
         metadata := { pe.metadata with
                       library := some (jsTrim p),
                       line := some n } }, false) := by
  unfold parseMetadataLine
  simp only [if_neg ht, Bool.false_eq_true, if_false, hs, if_pos, hm]

/-- Witness for the amended C2 at a concrete open event and continuation. -/
theorem C2_amended_message_rewrite_witness :
    parseMetadataLine exSynPe false exLineX =
      ({ exSynPe with
         message := jsTrim ("Syntax error".toList) ++ (", ".toList) ++
           jsTrim ("brace unexpected".toList),
         metadata := { exSynPe.metadata with
                       library := some (jsTrim ("/a/b.ctl".toList)),
                       line := some 29 } },
       false) :=
  C2_amended_message_rewrite exSynPe exLineX ("Syntax error".toList)
    ("brace unexpected".toList) ("/a/b.ctl".toList) 29
    (by decide) (by decide) (by decide)

/-- Counterexample to claim C10 as stated: with an open event whose message
is an extractable syntax-error shape, consuming the continuation `Line: x`
(which starts with `Line:` but has no digit after it) does change the
metadata — the syntax-error rewriting rule fires first and sets both
`library` and `line`. -/
theorem C10_counterexample :
    ((runLines initialParserState [exMainInline]).1.currentEvent.map
        (fun pe => (pe.metadata.line, pe.metadata.library)))
      = some (none, none) ∧
    ((runLines initialParserState [exMainInline, exLineX]).1.currentEvent.map
        (fun pe => (pe.metadata.line, pe.metadata.library)))
      = some (some 29, some ("/a/b.ctl".toList)) := by
  exact ⟨by decide, by decide⟩

theorem parseMetadataLine_line_no_digit (pe : PartialEvent) (mode : Bool)
    (line : List Char)
    (hpre : ("Line:".toList).isPrefixOf (jsTrim line) = true)
    (hdig : ((jsTrim ((jsTrim line).drop 5)).takeWhile Char.isDigit) = [])
    (hsyn : mode = false →
      containsSub (toLower pe.message) ("syntax error".toList) = true →
      inlineErrorMatch pe.message = none) :
    parseMetadataLine pe mode line = (pe, mode) := by
  obtain ⟨t, hta⟩ : ∃ t, jsTrim line = "Line:".toList ++ t := by
    obtain ⟨t, ht⟩ := List.isPrefixOf_iff_prefix.mp hpre
    exact ⟨t, ht.symm⟩
  have hL : ("Line:".toList : List Char) = ['L', 'i', 'n', 'e', ':'] := rfl
  have h1 : ("Script:".toList).isPrefixOf ("Line:".toList ++ t) = false := by
    rw [hL]
    simp [List.isPrefixOf]
  have h2 : ("Library:".toList).isPrefixOf ("Line:".toList ++ t) = false := by
    rw [hL]
    simp [List.isPrefixOf]
  have h3 : ("Line:".toList).isPrefixOf ("Line:".toList ++ t) = true := by
    rw [hL]
    simp [List.isPrefixOf]
  have h4 : ("Line:".toList ++ t).drop 5 = t := by
    rw [hL]
    simp
  have hdig2 : (jsTrim t).takeWhile Char.isDigit = [] := by
    rw [hta, h4] at hdig
    exact hdig
  have hne : jsTrim line ≠ "Stacktrace:".toList := by
    rw [hta, hL]
    intro hcontra
    have hhd : (['L', 'i', 'n', 'e', ':'] ++ t).headD ' ' =
        ("Stacktrace:".toList).headD ' ' := by rw [hcontra]
    simp [List.cons_append] at hhd
  have hplain : plainMeta pe (jsTrim line) = pe := by
    unfold plainMeta
    rw [hta]
    simp only [h1, h2, h3, Bool.false_eq_true, if_false, if_true, h4, hdig2,
      if_pos]
  unfold parseMetadataLine
  rw [if_neg hne]
  cases mode with
  | true =>
    have hstack : stackEntryMatch (jsTrim line) = none := by
      rw [hta, hL]
      rfl
    simp only [if_true, hstack]
  | false =>
    simp only [Bool.false_eq_true, if_false]
    by_cases hsynb : containsSub (toLower pe.message) ("syntax error".toList) = true
    · rw [if_pos hsynb, hsyn rfl hsynb, hplain]
    · rw [if_neg hsynb, hplain]

/-- Amended claim C10: a continuation line whose trimmed form starts with
`Line:` but whose remainder does not begin with a decimal digit is consumed
without any effect on the open event or the mode flag — provided the
syntax-error rewriting rule does not fire on this consumption (that rule,
keyed on the open event's message, runs first and does set metadata) —
while the line is still appended to the open event's raw-line buffer. -/
theorem C10_amended_line_no_digit (st : ParserState) (pe : PartialEvent)
    (line : List Char)
    (hc : st.currentEvent = some pe)
    (hmain : parseMainLine line = none)
    (hpre : ("Line:".toList).isPrefixOf (jsTrim line) = true)
    (hdig : ((jsTrim ((jsTrim line).drop 5)).takeWhile Char.isDigit) = [])
    (hsyn : st.stacktraceMode = false →
      containsSub (toLower pe.message) ("syntax error".toList) = true →
      inlineErrorMatch pe.message = none) :
    parseLine st line = ({ st with buffer := st.buffer ++ [line] }, []) := by
  rw [parseLine_cont st line pe hmain hc,
    parseMetadataLine_line_no_digit pe st.stacktraceMode line hpre hdig hsyn]
  rw [← hc]

/-- Witness for the amended C10 at a concrete reachable state. -/
theorem C10_amended_line_no_digit_witness :
    parseLine (runLines initialParserState [exMain1]).1 exLineX
      = ({ (runLines initialParserState [exMain1]).1 with
           buffer := (runLines initialParserState [exMain1]).1.buffer ++ [exLineX] },
         []) :=
  C10_amended_line_no_digit (runLines initialParserState [exMain1]).1
    { identifier := "WCCOActrl".toList,
      timestamp := "2025.11.16 18:56:26.972".toList,
      scope := "CTRL".toList, severity := .WARNING,
      message := "this is a warning".toList, metadata := {} }
    exLineX (by decide) (by decide) (by decide) (by decide) (by decide)

theorem lookupKey_insertKey_self {V : Type} (k : List Char) (v : V)
    (m : List (List Char × V)) : lookupKey k (insertKey k v m) = some v := by
  induction m with
  | nil => simp [insertKey, lookupKey]
  | cons kv rest ih =>
    rcases kv with ⟨k', v'⟩
    by_cases h : k' = k
    · simp [insertKey, lookupKey, h]
    · simp [insertKey, lookupKey, h, ih]

theorem lookupKey_insertKey_other {V : Type} (k k' : List Char) (v : V)
    (m : List (List Char × V)) (h : k' ≠ k) :
    lookupKey k' (insertKey k v m) = lookupKey k' m := by
  induction m with
  | nil =>
    simp only [insertKey, lookupKey]
    rw [if_neg (fun hh : k = k' => h hh.symm)]
  | cons kv rest ih =>
    rcases kv with ⟨k0, v0⟩
    by_cases h0 : k0 = k
    · subst h0
      simp only [insertKey, if_pos rfl, lookupKey]
      rw [if_neg (fun hh : k0 = k' => h hh.symm),
        if_neg (fun hh : k0 = k' => h hh.symm)]
    · simp [insertKey, lookupKey, h0, ih]

theorem handleFileChange_first_seen (st : LogFileWatcherState)
    (path now content : List Char)
    (hinit : st.isInitialized = true)
    (hk : lookupKey (toLower path) st.filePositions = none) :
    handleFileChange st path (.ok content) now =
      ({ st with filePositions :=
          insertKey (toLower path) content.length st.filePositions }, []) := by
  unfold handleFileChange
  simp only [hinit, Bool.true_eq_false, if_false, hk]

theorem handleFileChange_grow_ok (st : LogFileWatcherState)
    (path now content : List Char) (last : Nat)
    (hinit : st.isInitialized = true) (hp : st.isPaused = false)
    (hk : lookupKey (toLower path) st.filePositions = some last)
    (hgrow : last < content.length) :
    handleFileChange st path (.ok content) now =
      ({ st with
         parsers :=
           (processRange st (toLower path) (basename path) now
             (content.drop last)).1,
         filePositions :=
           insertKey (toLower path) content.length st.filePositions },
       (processRange st (toLower path) (basename path) now
         (content.drop last)).2) := by
  unfold handleFileChange
  simp only [hinit, Bool.true_eq_false, if_false, hk]
  rw [if_neg (Nat.not_le.mpr hgrow), hp]
  simp only [Bool.false_eq_true, if_false]

theorem handleFileChange_paused (st : LogFileWatcherState)
    (path now content : List Char) (last : Nat)
    (hinit : st.isInitialized = true) (hp : st.isPaused = true)
    (hk : lookupKey (toLower path) st.filePositions = some last)
    (hgrow : last < content.length) :
    handleFileChange st path (.ok content) now =
      ({ st with filePositions :=
          insertKey (toLower path) content.length st.filePositions }, []) := by
  unfold handleFileChange
  simp only [hinit, Bool.true_eq_false, if_false, hk]
  rw [if_neg (Nat.not_le.mpr hgrow), hp]
  simp only [if_true]

theorem handleFileChange_readErr (st : LogFileWatcherState)
    (path now : List Char) (size last : Nat)
    (hinit : st.isInitialized = true) (hp : st.isPaused = false)
    (hk : lookupKey (toLower path) st.filePositions = some last)
    (hgrow : last < size) :
    handleFileChange st path (.readErr size) now = (st, []) := by
  unfold handleFileChange
  simp only [hinit, Bool.true_eq_false, if_false, hk]
  rw [if_neg (Nat.not_le.mpr hgrow), hp]
  simp only [Bool.false_eq_true, if_false]

theorem processRange_generic (st : LogFileWatcherState)
    (key fileName now newText : List Char)
    (h : fileName ≠ "PVSS_II.log".toList) :
    processRange st key fileName now newText =
      (st.parsers,
       ((splitCrLf newText).filter (fun l => l ≠ [])).filterMap
         (fun l => if jsTrim l = [] then none
                   else parseGenericLogLine l fileName now)) := by
  unfold processRange
  rw [if_neg h]

theorem handleFileChange_positions (st : LogFileWatcherState)
    (path : List Char) (view : FsView) (now : List Char) :
    (handleFileChange st path view now).1.filePositions = st.filePositions ∨
    ∃ size, (handleFileChange st path view now).1.filePositions
        = insertKey (toLower path) size st.filePositions ∧
      ∀ last, lookupKey (toLower path) st.filePositions = some last →
        last < size := by
  by_cases hinit : st.isInitialized = true
  · cases view with
    | statErr =>
      left
      unfold handleFileChange
      simp [hinit]
    | readErr size =>
      cases hk : lookupKey (toLower path) st.filePositions with
      | none =>
        right
        refine ⟨size, ?_, fun last hl => by simp [hk] at hl⟩
        unfold handleFileChange
        simp [hinit, hk]
      | some last =>
        by_cases hle : size ≤ last
        · left
          unfold handleFileChange
          simp [hinit, hk, hle]
        · by_cases hp : st.isPaused = true
          · right
            refine ⟨size, ?_, fun l hl => by simp [hk] at hl; omega⟩
            unfold handleFileChange
            simp [hinit, hk, hle, hp]
          · left
            unfold handleFileChange
            simp only [hinit, Bool.true_eq_false, if_false, hk]
            rw [if_neg hle, if_neg hp]
    | ok content =>
      cases hk : lookupKey (toLower path) st.filePositions with
      | none =>
        right
        refine ⟨content.length, ?_, fun last hl => by simp [hk] at hl⟩
        rw [handleFileChange_first_seen st path now content hinit hk]
      | some last =>
        by_cases hle : content.length ≤ last
        · left
          unfold handleFileChange
          simp [hinit, hk, hle]
        · by_cases hp : st.isPaused = true
          · right
            refine ⟨content.length, ?_, fun l hl => by simp [hk] at hl; omega⟩
            rw [handleFileChange_paused st path now content last hinit hp hk
              (Nat.lt_of_not_le hle)]
          · right
            refine ⟨content.length, ?_, fun l hl => by simp [hk] at hl; omega⟩
            rw [handleFileChange_grow_ok st path now content last hinit
              (Bool.not_eq_true _ ▸ hp : st.isPaused = false) hk
              (Nat.lt_of_not_le hle)]
  · left
    unfold handleFileChange
    simp [Bool.not_eq_true st.isInitialized ▸ hinit]

theorem handleFileChange_offset_mono (st : LogFileWatcherState)
    (path : List Char) (view : FsView) (now k : List Char) (v : Nat)
    (h : lookupKey k st.filePositions = some v) :
    ∃ w, v ≤ w ∧
      lookupKey k (handleFileChange st path view now).1.filePositions
        = some w := by
  rcases handleFileChange_positions st path view now with hsame | ⟨size, heq, hlt⟩
  · exact ⟨v, Nat.le_refl v, by rw [hsame]; exact h⟩
  · by_cases hkk : toLower path = k
    · subst hkk
      exact ⟨size, Nat.le_of_lt (hlt v h),
        by rw [heq]; exact lookupKey_insertKey_self _ _ _⟩
    · exact ⟨v, Nat.le_refl v,
        by rw [heq, lookupKey_insertKey_other _ _ _ _ (fun hh => hkk hh.symm)]
           exact h⟩

/-- Counterexample to claim C3 as stated: on a growth notification for a
tracked, grown file (engine not paused) whose read fails, the recorded
offset is NOT advanced to the current size — the offset update lives in the
stream's `end` callback, which never runs after a stream `error`; the state
is left entirely unchanged. -/
theorem C3_counterexample :
    handleFileChange exKnownSt exPvssPath (.readErr 5) [] = (exKnownSt, []) ∧
    lookupKey (toLower exPvssPath) exKnownSt.filePositions = some 2 ∧
    (2 : Nat) ≠ 5 := by
  exact ⟨by decide, by decide, by decide⟩

/-- Amended claim C3: for a tracked file that grew (engine not paused), the
recorded offset advances to `currentSize` whenever the read completes,
regardless of what parsing produced; but when reading the byte range fails,
the error is only logged — no event is emitted and the offset stays
unchanged (the same range may be re-read on the next notification). -/
theorem C3_amended_offset_advance (st : LogFileWatcherState)
    (path now : List Char) (last : Nat)
    (hinit : st.isInitialized = true) (hp : st.isPaused = false)
    (hk : lookupKey (toLower path) st.filePositions = some last) :
    (∀ size, last < size →
      handleFileChange st path (.readErr size) now = (st, [])) ∧
    (∀ content : List Char, last < content.length →
      lookupKey (toLower path)
          (handleFileChange st path (.ok content) now).1.filePositions
        = some content.length ∧
      (handleFileChange st path (.ok content) now).2 =
        (processRange st (toLower path) (basename path) now
          (content.drop last)).2) := by
  constructor
  · intro size hgrow
    exact handleFileChange_readErr st path now size last hinit hp hk hgrow
  · intro content hgrow
    rw [handleFileChange_grow_ok st path now content last hinit hp hk hgrow]
    exact ⟨lookupKey_insertKey_self _ _ _, rfl⟩

/-- Witness for the amended C3 at a concrete state. -/
theorem C3_amended_offset_advance_witness :
    handleFileChange exKnownSt exPvssPath (.readErr 5) [] = (exKnownSt, []) ∧
    lookupKey (toLower exPvssPath)
        (handleFileChange exKnownSt exPvssPath (.ok ("abcde".toList)) []).1.filePositions
      = some ("abcde".toList).length := by
  have h := C3_amended_offset_advance exKnownSt exPvssPath [] 2
    (by decide) (by decide) (by decide)
  exact ⟨h.1 5 (by decide), (h.2 ("abcde".toList) (by decide)).1⟩

/-- Claim C4: pause semantics.  (1) While paused, a growth notification for
a tracked file that grew only advances the recorded offset to the current
size: nothing is read or parsed and no event is emitted.  (2) Recorded
offsets never decrease across any notification, so bytes skipped during
pause stay below the offset forever.  (3) After resume, a successful
notification processes exactly the bytes past the recorded offset — content
below it (in particular everything appended while paused, which the paused
notification already skipped past) is never parsed or re-delivered. -/
theorem C4_pause_semantics :
    (∀ (st : LogFileWatcherState) (path now content : List Char) (last : Nat),
      st.isInitialized = true → st.isPaused = true →
      lookupKey (toLower path) st.filePositions = some last →
      last < content.length →
      handleFileChange st path (.ok content) now =
        ({ st with filePositions :=
            insertKey (toLower path) content.length st.filePositions }, [])) ∧
    (∀ (st : LogFileWatcherState) (path : List Char) (view : FsView)
        (now k : List Char) (v : Nat),
      lookupKey k st.filePositions = some v →
      ∃ w, v ≤ w ∧
        lookupKey k (handleFileChange st path view now).1.filePositions
          = some w) ∧
    (∀ (st : LogFileWatcherState) (path now pre post : List Char),
      st.isInitialized = true → st.isPaused = false →
      lookupKey (toLower path) st.filePositions = some pre.length →
      post ≠ [] →
      (handleFileChange st path (.ok (pre ++ post)) now).2 =
        (processRange st (toLower path) (basename path) now post).2) := by
  refine ⟨?_, ?_, ?_⟩
  · intro st path now content last hinit hp hk hgrow
    exact handleFileChange_paused st path now content last hinit hp hk hgrow
  · intro st path view now k v h
    exact handleFileChange_offset_mono st path view now k v h
  · intro st path now pre post hinit hp hk hpost
    have hgrow : pre.length < (pre ++ post).length := by
      rw [List.length_append]
      have := List.length_pos.mpr hpost
      omega
    rw [handleFileChange_grow_ok st path now (pre ++ post) pre.length hinit hp
      hk hgrow]
    rw [List.drop_left]

/-- Witness for C4 at a concrete paused state. -/
theorem C4_pause_semantics_witness :
    handleFileChange exPausedSt exPvssPath (.ok ("abcde".toList)) [] =
      ({ exPausedSt with
         filePositions := insertKey (toLower exPvssPath)
           ("abcde".toList).length exPausedSt.filePositions }, []) :=
  C4_pause_semantics.1 exPausedSt exPvssPath [] ("abcde".toList) 2
    (by decide) (by decide) (by decide) (by decide)

/-- Claim C5: first-seen-file bootstrapping.  A growth notification for a
path whose canonical key is unknown records the file's current size as its
offset and emits no events (nothing is read); a subsequent notification for
the same file with appended content produces exactly the events obtained
from the newly appended bytes. -/
theorem C5_first_seen_bootstrapping :
    (∀ (st : LogFileWatcherState) (path now content : List Char),
      st.isInitialized = true →
      lookupKey (toLower path) st.filePositions = none →
      handleFileChange st path (.ok content) now =
        ({ st with filePositions :=
            insertKey (toLower path) content.length st.filePositions }, [])) ∧
    (∀ (st : LogFileWatcherState) (path now c1 post : List Char),
      st.isInitialized = true → st.isPaused = false →
      lookupKey (toLower path) st.filePositions = none →
      post ≠ [] →
      (handleFileChange (handleFileChange st path (.ok c1) now).1 path
          (.ok (c1 ++ post)) now).2 =
        (processRange (handleFileChange st path (.ok c1) now).1 (toLower path)
          (basename path) now post).2) := by
  constructor
  · intro st path now content hinit hk
    exact handleFileChange_first_seen st path now content hinit hk
  · intro st path now c1 post hinit hp hk hpost
    rw [handleFileChange_first_seen st path now c1 hinit hk]
    dsimp only
    have hgrow : c1.length < (c1 ++ post).length := by
      rw [List.length_append]
      have := List.length_pos.mpr hpost
      omega
    rw [handleFileChange_grow_ok
      { st with filePositions := insertKey (toLower path) c1.length st.filePositions }
      path now (c1 ++ post) c1.length hinit hp
      (lookupKey_insertKey_self _ _ _) hgrow]
    dsimp only
    rw [List.drop_left]

/-- Witness for C5 at a concrete fresh state. -/
theorem C5_first_seen_bootstrapping_witness :
    handleFileChange exFreshSt exPvssPath (.ok ("ab".toList)) [] =
      ({ exFreshSt with
         filePositions := insertKey (toLower exPvssPath)
           ("ab".toList).length exFreshSt.filePositions }, []) :=
  C5_first_seen_bootstrapping.1 exFreshSt exPvssPath [] ("ab".toList)
    (by decide) (by decide)

/-- Counterexample to claim C7 as stated: the generic event's `metadata.raw`
is not the originating file name — the source prepends the literal
`From: `. -/
theorem C7_counterexample :
    ((handleFileChange exUiSt exUiPath (.ok ("x\n".toList)) ("T".toList)).2).map
        (fun e => e.metadata.map (fun m => m.raw))
      = [some (some ("From: UI.log".toList))] ∧
    ("From: UI.log".toList : List Char) ≠ "UI.log".toList := by
  exact ⟨by decide, by decide⟩

/-- Amended claim C7: for a tracked, grown, non-paused non-primary log
file, each non-empty (after trimming) line of the newly read range yields
exactly one generic event with identifier `GENERIC`, the injected wall
clock as timestamp, scope `OTHER`, severity `OTHER`, message the raw line,
`metadata.raw` the string `From: ` followed by the originating file name,
and `rawLines` the singleton of the line; whitespace-only lines yield
nothing, and no reassembler state is created or touched. -/
theorem C7_amended_generic_events (st : LogFileWatcherState)
    (path now content : List Char) (last : Nat)
    (hinit : st.isInitialized = true) (hp : st.isPaused = false)
    (hk : lookupKey (toLower path) st.filePositions = some last)
    (hgrow : last < content.length)
    (hname : basename path ≠ "PVSS_II.log".toList) :
    (handleFileChange st path (.ok content) now).2
      = ((splitCrLf (content.drop last)).filter (fun l => l ≠ [])).filterMap
          (fun l => if jsTrim l = [] then none
                    else parseGenericLogLine l (basename path) now) ∧
    (∀ e ∈ (handleFileChange st path (.ok content) now).2,
      ∃ l, jsTrim l ≠ [] ∧
        e = { identifier := "GENERIC".toList, timestamp := now,
              scope := "OTHER".toList, severity := .OTHER, message := l,
              metadata := some { script := none, library := none, line := none,
                                 stacktrace := none,
                                 raw := some ("From: ".toList ++ basename path) },
              rawLines := [l] }) ∧
    (handleFileChange st path (.ok content) now).1.parsers = st.parsers := by
  rw [handleFileChange_grow_ok st path now content last hinit hp hk hgrow,
    processRange_generic st (toLower path) (basename path) now
      (content.drop last) hname]
  refine ⟨rfl, ?_, rfl⟩
  intro e he
  simp only [List.mem_filterMap] at he
  obtain ⟨l, _, hsome⟩ := he
  by_cases htrim : jsTrim l = []
  · rw [if_pos htrim] at hsome
    cases hsome
  · rw [if_neg htrim] at hsome
    unfold parseGenericLogLine at hsome
    rw [if_neg htrim] at hsome
    cases hsome
    exact ⟨l, htrim, rfl⟩

/-- Witness for the amended C7 at a concrete state and content. -/
theorem C7_amended_generic_events_witness :
    (handleFileChange exUiSt exUiPath (.ok ("x\n".toList)) ("T".toList)).2
      = ((splitCrLf (("x\n".toList).drop 0)).filter (fun l => l ≠ [])).filterMap
          (fun l => if jsTrim l = [] then none
                    else parseGenericLogLine l (basename exUiPath) ("T".toList)) ∧
    (handleFileChange exUiSt exUiPath (.ok ("x\n".toList)) ("T".toList)).1.parsers
      = exUiSt.parsers := by
  have h := C7_amended_generic_events exUiSt exUiPath ("T".toList) ("x\n".toList)
    0 (by decide) (by decide) (by decide) (by decide) (by decide)
  exact ⟨h.1, h.2.2⟩

end WinccoaLog
